import Mathlib

/-!
Shallow embedding of the BFGS optimizer core of lesspar
(`src/include/lesstimate/bfgsOptim.h`) and of the GLMNET ridge penalty
(`src/include/glmnet_ridge.h`).

Machine doubles are modelled as `Option ℚ`: `some x` is a finite value and
`none` stands for a non-finite value (NaN or an infinity).  Arithmetic
propagates `none` (any operation with a non-finite operand yields a
non-finite result) and an ordering comparison with a `none` operand is
`false`, as IEEE comparisons with NaN are; the model does not distinguish
NaN from the infinities, and no statement below depends on ordering
against an infinity.  An `arma::rowvec` is a list of such scalars and an
`arma::mat` a list of rows.  External collaborators — the statistical
model's `fit`/`gradients`, the abstract smooth penalty (already combined
with its tuning parameters), `arma::solve`, the uniform random source
`unif`, and the BFGS Hessian update of `bfgs.h` — enter as explicit
functional parameters.  The `parameterLabels` argument is threaded through
the C++ code unchanged and never inspected by the optimizer itself, so it
is absorbed into the abstract model functions.
-/

namespace lessSEM

/-- A machine double: `some x` is finite, `none` is non-finite (NaN or ±∞). -/
abbrev D := Option ℚ

/-- An `arma::rowvec` of machine doubles. -/
abbrev DVec := List D

/-- An `arma::mat` of machine doubles, stored as a list of rows. -/
abbrev DMat := List DVec

/-- Addition of machine doubles; a non-finite operand gives a non-finite sum. -/
def oadd : D → D → D
  | some a, some b => some (a + b)
  | _, _ => none

/-- Subtraction of machine doubles. -/
def osub : D → D → D
  | some a, some b => some (a - b)
  | _, _ => none

/-- Multiplication of machine doubles (`0 * NaN` and `0 * ∞` are non-finite,
matching IEEE, where they are NaN). -/
def omul : D → D → D
  | some a, some b => some (a * b)
  | _, _ => none

/-- The comparison `x <= y` on machine doubles; any comparison with a
non-finite operand is `false` (as for NaN; the claims never compare
against an infinity). -/
def oleB : D → D → Bool
  | some a, some b => decide (a ≤ b)
  | _, _ => false

/-- The comparison `x < y` on machine doubles; any comparison with a
non-finite operand is `false` (as for NaN). -/
def oltB : D → D → Bool
  | some a, some b => decide (a < b)
  | _, _ => false

/-- The elementwise test `abs x < bound` used by the convergence criteria;
`false` on a non-finite entry (as for NaN). -/
def absLtB (bound : ℚ) : D → Bool
  | some x => decide (|x| < bound)
  | none => false

/-- `arma::is_finite` on a vector: every entry is finite. -/
def allFinite (v : DVec) : Bool := v.all Option.isSome

/-- Elementwise vector addition (conformable sizes are assumed, as Armadillo
raises a size error otherwise). -/
def vadd (v w : DVec) : DVec := List.zipWith oadd v w

/-- Multiplication of a vector by a finite scalar. -/
def smulv (c : ℚ) (v : DVec) : DVec := v.map (fun e => omul (some c) e)

/-- Elementwise negation, for `-arma::trans(arma::solve(...))`. -/
def negv (v : DVec) : DVec := v.map (fun e => omul (some (-1)) e)

/-- Dot product `v * arma::trans(w)` of two row vectors. -/
def dotv (v w : DVec) : D := (List.zipWith omul v w).foldl oadd (some 0)

/-- Matrix times column vector, row by row.  The scalar
`direction * Hessian * arma::trans(direction)` of the source is computed
below as `dotv direction (matvecv Hessian direction)`, which for
conformable operands equals the left-associated product of the source. -/
def matvecv (M : DMat) (v : DVec) : DVec := M.map (fun row => dotv row v)

/-- Diagonal of a square matrix, as in `Hessian_k.diag()`. -/
def matDiag (M : DMat) : DVec := M.enum.map (fun p => p.2.getD p.1 none)

/-- `arma::max` of a vector; Armadillo's max skips NaN entries, so non-finite
entries are skipped and the result is `none` only when no finite entry
exists. -/
def armaMax (v : DVec) : D :=
  v.foldl (fun acc e =>
    match acc, e with
    | none, e => e
    | some a, some x => some (max a x)
    | some a, none => some a) none

/-! ### The ridge penalty of glmnet_ridge.h

The claims about the ridge penalty quantify over (finite) parameter
vectors, so its inputs are modelled as exact rationals. -/

/-- Modelled from the spec: the `TuningParameters` record of §3 (per-parameter
arrays `alpha`, `lambda`, `weights`); the defining header `enet.h` is not
under `src/`, and the fields are exactly those accessed by
`glmnet_ridge.h`. -/
structure tuningParametersEnetGlmnet where
  alpha : List ℚ
  lambda : List ℚ
  weights : List ℚ

/-- `penaltyRidgeGlmnet::getValue` (glmnet_ridge.h lines 13-34): if
`arma::sum(alpha) == alpha.n_elem` the penalty is `0.0`; otherwise the loop
accumulates `lambda_i * pow(parameterValues.at(p), 2)` with
`lambda_i = (1 - alpha.at(p)) * lambda.at(p) * weights.at(p)`. -/
def penaltyRidgeGlmnet.getValue (parameterValues : List ℚ)
    (tuningParameters : tuningParametersEnetGlmnet) : ℚ :=
  if tuningParameters.alpha.sum = (tuningParameters.alpha.length : ℚ) then 0
  else
    (List.range parameterValues.length).foldl
      (fun penalty p =>
        penalty +
          ((1 - tuningParameters.alpha.getD p 0) * tuningParameters.lambda.getD p 0 *
              tuningParameters.weights.getD p 0) *
            (parameterValues.getD p 0) ^ 2)
      0

/-- `penaltyRidgeGlmnet::getGradients` (glmnet_ridge.h lines 36-63): a
zero-filled vector of the parameter length, returned unchanged if
`arma::sum(alpha) == alpha.n_elem`, and otherwise filled with
`lambda_i * 2 * parameterValues.at(p)`. -/
def penaltyRidgeGlmnet.getGradients (parameterValues : List ℚ)
    (tuningParameters : tuningParametersEnetGlmnet) : List ℚ :=
  if tuningParameters.alpha.sum = (tuningParameters.alpha.length : ℚ) then
    List.replicate parameterValues.length 0
  else
    (List.range parameterValues.length).map
      (fun p =>
        ((1 - tuningParameters.alpha.getD p 0) * tuningParameters.lambda.getD p 0 *
            tuningParameters.weights.getD p 0) *
          2 * (parameterValues.getD p 0))

/-! ### The line search of bfgsOptim.h -/

/-- The external collaborators consumed by `bfgsLineSearch` and `bfgsOptim`:
the model's `fit` and `gradients` (which may return non-finite values), the
smooth penalty's `getValue`/`getGradients` with its tuning parameters
already applied, the linear solver `arma::solve`, and the Hessian update
`lessSEM::BFGS`.  `bfgsUpdate` is modelled from the spec: the §4.4 Hessian
updater contract (its source `bfgs.h` is not under `src/`); it is an opaque
update function with the argument list of the call site
`(parameters_kMinus1, gradients_kMinus1, Hessian_kMinus1, parameters_k,
gradients_k, true, .001, verbose == -99)`. -/
structure Funs where
  mfit : DVec → D
  mgrad : DVec → DVec
  pvalue : DVec → D
  pgrad : DVec → DVec
  solveLin : DMat → DVec → DVec
  bfgsUpdate : DVec → DVec → DMat → DVec → DVec → Bool → ℚ → Bool → DMat

/-- Candidate point of line-search iteration `iteration`
(bfgsOptim.h lines 176-180): `currentStepSize = std::pow(stepSize, iteration)`
and `parameters_k = parameters_kMinus1 + currentStepSize * direction`. -/
def lsCand (parameters_kMinus1 direction : DVec) (stepSize : ℚ) (iteration : ℕ) : DVec :=
  vadd parameters_kMinus1 (smulv (stepSize ^ iteration) direction)

/-- Combined fit at a candidate (lines 182-186):
`model_.fit(parameters_k, ...) + smoothPenalty_.getValue(parameters_k, ...)`. -/
def lsFit (F : Funs) (parameters_k : DVec) : D :=
  oadd (F.mfit parameters_k) (F.pvalue parameters_k)

/-- The `compareTo` scalar (lines 209-213):
`gradients_kMinus1 * trans(direction) + gamma * (direction * Hessian_kMinus1 *
trans(direction)) + pen_d - pen_0`, where `pen_d = pen_0 = 0.0`. -/
def lsCompareTo (gradients_kMinus1 direction : DVec) (Hessian_kMinus1 : DMat)
    (gamma : ℚ) : D :=
  osub
    (oadd
      (oadd (dotv gradients_kMinus1 direction)
        (omul (some gamma) (dotv direction (matvecv Hessian_kMinus1 direction))))
      (some 0))
    (some 0)

/-- The sufficient-decrease test of line 217:
`converged = f_k - f_0 <= sigma * currentStepSize * compareTo(0, 0)`, with
`f_k = fit_k + p_k`, `p_k = 0.0`, `f_0 = fit_kMinus1 + pen_0`,
`pen_0 = 0.0`, and `currentStepSize = pow(stepSize, iteration)`. -/
def lsTestB (F : Funs) (parameters_kMinus1 direction : DVec) (fit_kMinus1 : D)
    (gradients_kMinus1 : DVec) (Hessian_kMinus1 : DMat)
    (stepSize sigma gamma : ℚ) (iteration : ℕ) : Bool :=
  oleB
    (osub (oadd (lsFit F (lsCand parameters_kMinus1 direction stepSize iteration)) (some 0))
      (oadd fit_kMinus1 (some 0)))
    (omul (omul (some sigma) (some (stepSize ^ iteration)))
      (lsCompareTo gradients_kMinus1 direction Hessian_kMinus1 gamma))

/-- Full acceptance of line-search iteration `i`: the combined fit at the
candidate is finite (line 188), the sufficient-decrease test holds
(line 217), and the model gradient at the candidate is finite
(lines 223-230). -/
def lsAccepts (F : Funs) (parameters_kMinus1 direction : DVec) (fit_kMinus1 : D)
    (gradients_kMinus1 : DVec) (Hessian_kMinus1 : DMat)
    (stepSize sigma gamma : ℚ) (i : ℕ) : Prop :=
  (lsFit F (lsCand parameters_kMinus1 direction stepSize i)).isSome = true ∧
  lsTestB F parameters_kMinus1 direction fit_kMinus1 gradients_kMinus1 Hessian_kMinus1
    stepSize sigma gamma i = true ∧
  allFinite (F.mgrad (lsCand parameters_kMinus1 direction stepSize i)) = true

instance lsAcceptsDecidable (F : Funs) (p d : DVec) (f0 : D) (g : DVec) (H : DMat)
    (s σ γ : ℚ) (i : ℕ) : Decidable (lsAccepts F p d f0 g H s σ γ i) := by
  unfold lsAccepts
  infer_instance

/-- The `for` loop of `bfgsLineSearch` (lines 173-235), recursing on the
number of remaining iterations.  The third argument of the recursion is the
current value of the variable `parameters_k` (assigned at line 180 in every
iteration before any use, so a fresh iteration overwrites it), the fourth
the current value of the variable `converged`.  A non-finite combined fit
skips to the next iteration without touching `converged` (lines 188-192);
a candidate passing the test with a non-finite gradient also skips, but
leaves `converged` set to the test's value (lines 219-233); an accepted
candidate breaks out of the loop. -/
def lineSearchLoop (F : Funs) (parameters_kMinus1 direction : DVec) (fit_kMinus1 : D)
    (gradients_kMinus1 : DVec) (Hessian_kMinus1 : DMat)
    (stepSize sigma gamma : ℚ) : ℕ → ℕ → DVec → Bool → DVec × Bool
  | _, 0, parameters_k, converged => (parameters_k, converged)
  | iteration, rem + 1, _, converged =>
      let parameters_k := lsCand parameters_kMinus1 direction stepSize iteration
      let fit_k := lsFit F parameters_k
      if fit_k.isSome then
        let converged2 := lsTestB F parameters_kMinus1 direction fit_kMinus1
          gradients_kMinus1 Hessian_kMinus1 stepSize sigma gamma iteration
        if converged2 then
          let gradients_k := F.mgrad parameters_k
          if allFinite gradients_k then (parameters_k, converged2)
          else
            lineSearchLoop F parameters_kMinus1 direction fit_kMinus1 gradients_kMinus1
              Hessian_kMinus1 stepSize sigma gamma (iteration + 1) rem parameters_k converged2
        else
          lineSearchLoop F parameters_kMinus1 direction fit_kMinus1 gradients_kMinus1
            Hessian_kMinus1 stepSize sigma gamma (iteration + 1) rem parameters_k converged2
      else
        lineSearchLoop F parameters_kMinus1 direction fit_kMinus1 gradients_kMinus1
          Hessian_kMinus1 stepSize sigma gamma (iteration + 1) rem parameters_k converged

/-- Result of `bfgsLineSearch`: the returned `parameters_k`, and whether
`warn("Line search did not converge.")` was called (line 237-238), i.e.
the negation of the final value of `converged`. -/
structure LSResult where
  parameters : DVec
  warned : Bool
deriving DecidableEq

/-- `bfgsLineSearch` (bfgsOptim.h lines 104-241).  `r1` and `r2` are the two
draws of the uniform random source `unif(1, 0.0, 1.0)` of lines 162 and 167,
passed in explicitly.  `parameters_k` is created with
`gradients_kMinus1.n_rows` entries — for an `arma::rowvec` (`arma::Row`)
`n_rows` is always `1` — and filled with `arma::datum::nan` (lines
126-127).  The working step size of lines 150-169 (the `>= 1` clamp to
`.9` and, when `r1 < 0.25`, the overriding draw `r2`) is reassigned at the
top of every loop iteration (line 177) before any use.  The unused
`verbose` parameter of the source is kept. -/
def bfgsLineSearch (F : Funs) (parameters_kMinus1 direction : DVec) (fit_kMinus1 : D)
    (gradients_kMinus1 : DVec) (Hessian_kMinus1 : DMat)
    (stepSize sigma gamma : ℚ) (maxIterLine : ℤ) (verbose : ℤ) (r1 r2 : ℚ) : LSResult :=
  let parameters_k0 : DVec := List.replicate 1 (none : D)
  let currentStepSize0 : ℚ := if stepSize ≥ 1 then 9 / 10 else stepSize
  let _currentStepSize1 : ℚ := if r1 < 1 / 4 then r2 else currentStepSize0
  let res := lineSearchLoop F parameters_kMinus1 direction fit_kMinus1 gradients_kMinus1
    Hessian_kMinus1 stepSize sigma gamma 0 maxIterLine.toNat parameters_k0 false
  ⟨res.1, !res.2⟩

/-! ### The outer iteration of bfgsOptim.h -/

/-- The convergence criteria of the BFGS optimizer (bfgsOptim.h lines 34-39). -/
inductive convergenceCriteriaBFGS
  | GLMNET_
  | fitChange_
  | gradients_
deriving DecidableEq

/-- The `controlBFGS` settings record (bfgsOptim.h lines 64-79). -/
structure controlBFGS where
  initialHessian : DMat
  stepSize : ℚ
  sigma : ℚ
  gamma : ℚ
  maxIterOut : ℤ
  maxIterIn : ℤ
  maxIterLine : ℤ
  breakOuter : ℚ
  breakInner : ℚ
  convergenceCriterion : convergenceCriteriaBFGS
  verbose : ℤ

/-- Modelled from the spec: the `FitResult` record of §3 (its header
`fitResults.h` is not under `src/`); the fields are exactly those assigned
at bfgsOptim.h lines 462-468, plus `warnedOuter`, which records whether
`warn("Outer iterations did not converge")` was called (lines 457-460). -/
structure fitResults where
  convergence : Bool
  fit : D
  fits : DVec
  parameterValues : DVec
  Hessian : DMat
  warnedOuter : Bool

/-- The working variables of `bfgsOptim` (lines 276-321), all created at
entry and mutated across outer iterations. -/
structure OuterState where
  parameters_k : DVec
  parameters_kMinus1 : DVec
  fit_k : D
  fit_kMinus1 : D
  penalizedFit_k : D
  penalizedFit_kMinus1 : D
  gradients_k : DVec
  gradients_kMinus1 : DVec
  Hessian_k : DMat
  Hessian_kMinus1 : DMat
  direction : DVec
  fits : DVec

/-- Initial state of `bfgsOptim` (lines 271-321): fit, penalized fit and
gradients evaluated at the starting values, the fit trace filled with
`NA_REAL` except for slot 0, both Hessians set to the initial Hessian, and
`direction` a default-constructed (uninitialized, overwritten before use)
vector, modelled as non-finite entries. -/
def initState (F : Funs) (startingValues : DVec) (c : controlBFGS) : OuterState :=
  let fit0 := oadd (F.mfit startingValues) (F.pvalue startingValues)
  let grad0 := vadd (F.mgrad startingValues) (F.pgrad startingValues)
  let fits0 := (List.replicate (c.maxIterOut.toNat + 1) (none : D)).set 0 fit0
  ⟨startingValues, startingValues, fit0, fit0, fit0, fit0, grad0, grad0,
    c.initialHessian, c.initialHessian,
    List.replicate startingValues.length (none : D), fits0⟩

/-- The body of outer iteration `i` up to (and excluding) the convergence
check (lines 332-396): recompute `gradients_kMinus1`, solve for the
quasi-Newton `direction`, run the line search, recompute fit and gradients
at the new point, record the fit, and update the Hessian.
`rand i` supplies the two uniform draws consumed by the line search in
iteration `i`. -/
def outerStep (F : Funs) (c : controlBFGS) (rand : ℕ → ℚ × ℚ) (i : ℕ)
    (st : OuterState) : OuterState :=
  let gradients_kMinus1 := vadd (F.mgrad st.parameters_kMinus1) (F.pgrad st.parameters_kMinus1)
  let direction := negv (F.solveLin st.Hessian_kMinus1 gradients_kMinus1)
  let ls := bfgsLineSearch F st.parameters_kMinus1 direction st.fit_kMinus1
    gradients_kMinus1 st.Hessian_kMinus1 c.stepSize c.sigma c.gamma c.maxIterLine
    c.verbose (rand i).1 (rand i).2
  let parameters_k := ls.parameters
  let gradients_k := vadd (F.mgrad parameters_k) (F.pgrad parameters_k)
  let fit_k := oadd (F.mfit parameters_k) (F.pvalue parameters_k)
  let penalizedFit_k := fit_k
  let fits := st.fits.set (i + 1) penalizedFit_k
  let Hessian_k := F.bfgsUpdate st.parameters_kMinus1 gradients_kMinus1 st.Hessian_kMinus1
    parameters_k gradients_k true (1 / 1000) (decide (c.verbose = -99))
  { st with
    parameters_k := parameters_k
    gradients_k := gradients_k
    gradients_kMinus1 := gradients_kMinus1
    fit_k := fit_k
    penalizedFit_k := penalizedFit_k
    fits := fits
    direction := direction
    Hessian_k := Hessian_k }

/-- The convergence check of outer iteration `i` (lines 398-441), computed
from the state left by `outerStep`.  The `GLMNET_` branch compares the
maximum of `HessDiag * pow(trans(direction), 2)` (the diagonal of
`Hessian_k` times the squared direction, elementwise) with `breakOuter`;
the `fitChange_` branch compares `abs(fits(i+1) - fits(i))`; the
`gradients_` branch requires `sum(abs(gradients_k) < breakOuter)` to equal
`n_elem`.  The `catch` branches of the source are unreachable in this pure
model. -/
def outerCrit (c : controlBFGS) (i : ℕ) (st : OuterState) : Bool :=
  match c.convergenceCriterion with
  | .GLMNET_ =>
      oltB
        (armaMax (List.zipWith omul (matDiag st.Hessian_k)
          (st.direction.map (fun e => omul e e))))
        (some c.breakOuter)
  | .fitChange_ => absLtB c.breakOuter (osub (st.fits.getD (i + 1) none) (st.fits.getD i none))
  | .gradients_ =>
      decide (st.gradients_k.countP (absLtB c.breakOuter) = st.gradients_k.length)

/-- Rolling `_k` state into `_kMinus1` for the next outer iteration
(lines 448-453). -/
def rollState (st : OuterState) : OuterState :=
  { st with
    fit_kMinus1 := st.fit_k
    penalizedFit_kMinus1 := st.penalizedFit_k
    parameters_kMinus1 := st.parameters_k
    gradients_kMinus1 := st.gradients_k
    Hessian_kMinus1 := st.Hessian_k }

/-- The outer `for` loop of `bfgsOptim` (lines 324-455), recursing on the
remaining iteration budget; returns the final state together with the
`breakOuter` flag.  On `breakOuter` the loop exits before rolling the
state; when the budget is exhausted the flag is `false`. -/
def outerLoop (F : Funs) (c : controlBFGS) (rand : ℕ → ℚ × ℚ) :
    ℕ → ℕ → OuterState → OuterState × Bool
  | _, 0, st => (st, false)
  | i, fuel + 1, st =>
      let st2 := outerStep F c rand i st
      if outerCrit c i st2 then (st2, true)
      else outerLoop F c rand (i + 1) fuel (rollState st2)

/-- `bfgsOptim` (bfgsOptim.h lines 259-472): run the outer loop from the
initial state and assemble the `fitResults` record; the non-convergence
warning of lines 457-460 is recorded in `warnedOuter`. -/
def bfgsOptim (F : Funs) (startingValues : DVec) (c : controlBFGS)
    (rand : ℕ → ℚ × ℚ) : fitResults :=
  let st0 := initState F startingValues c
  let res := outerLoop F c rand 0 c.maxIterOut.toNat st0
  { convergence := res.2
    fit := res.1.penalizedFit_k
    fits := res.1.fits
    parameterValues := res.1.parameters_k
    Hessian := res.1.Hessian_k
    warnedOuter := !res.2 }

/-- The state stream of the outer iteration without early exit, starting at
iteration index `k` from state `st`: `streamFrom F c rand k st j` is the
state after `j` completed (stepped and rolled) outer iterations. -/
def streamFrom (F : Funs) (c : controlBFGS) (rand : ℕ → ℚ × ℚ) (k : ℕ)
    (st : OuterState) : ℕ → OuterState
  | 0 => st
  | j + 1 => rollState (outerStep F c rand (k + j) (streamFrom F c rand k st j))

/-! ### Concrete instances used by witnesses and counterexamples -/

/-- A model whose fit at a point is the first coordinate (so the fit grows
along the direction `[1]`) and whose gradient is everywhere finite. -/
def cexF1 : Funs where
  mfit := fun v => v.headI
  mgrad := fun _ => [some 1]
  pvalue := fun _ => some 0
  pgrad := fun _ => [some 0]
  solveLin := fun _ g => g
  bfgsUpdate := fun _ _ H _ _ _ _ _ => H

/-- A model whose fit at a point is the negated first coordinate (so the fit
falls along the direction `[1]`) and whose gradient is everywhere finite. -/
def witF1 : Funs where
  mfit := fun v => Option.map (fun x => -x) v.headI
  mgrad := fun _ => [some 1]
  pvalue := fun _ => some 0
  pgrad := fun _ => [some 0]
  solveLin := fun _ g => g
  bfgsUpdate := fun _ _ H _ _ _ _ _ => H

/-- A model whose fit is non-finite everywhere. -/
def witF7 : Funs where
  mfit := fun _ => none
  mgrad := fun _ => [some 1]
  pvalue := fun _ => some 0
  pgrad := fun _ => [some 0]
  solveLin := fun _ g => g
  bfgsUpdate := fun _ _ H _ _ _ _ _ => H

/-- A model whose fit at a point is non-finite exactly when the first
coordinate is `1`, and the negated first coordinate otherwise. -/
def witF3 : Funs where
  mfit := fun v => if v.headI = some 1 then none else Option.map (fun x => -x) v.headI
  mgrad := fun _ => [some 1]
  pvalue := fun _ => some 0
  pgrad := fun _ => [some 0]
  solveLin := fun _ g => g
  bfgsUpdate := fun _ _ H _ _ _ _ _ => H

/-- A one-parameter model with identically zero fit and gradients. -/
def witF9 : Funs where
  mfit := fun _ => some 0
  mgrad := fun _ => [some 0]
  pvalue := fun _ => some 0
  pgrad := fun _ => [some 0]
  solveLin := fun _ g => g
  bfgsUpdate := fun _ _ H _ _ _ _ _ => H

/-- Control settings with the `gradients_` convergence criterion. -/
def witC9 : controlBFGS :=
  ⟨[[some 1]], 1 / 2, 1 / 100, 0, 3, 10, 5, 1, 1, convergenceCriteriaBFGS.gradients_, 0⟩

/-! ### Helper lemmas -/

theorem list_sum_of_all_one (l : List ℚ) (h : ∀ a ∈ l, a = 1) :
    l.sum = (l.length : ℚ) := by
  induction l with
  | nil => simp
  | cons x xs ih =>
      have hx : x = 1 := h x (by simp)
      have hxs : xs.sum = (xs.length : ℚ) := ih (fun a ha => h a (by simp [ha]))
      simp [hx, hxs]
      ring

theorem list_sum_le_length (l : List ℚ) (h : ∀ a ∈ l, a ≤ 1) :
    l.sum ≤ (l.length : ℚ) := by
  induction l with
  | nil => simp
  | cons x xs ih =>
      have hx : x ≤ 1 := h x (by simp)
      have hxs : xs.sum ≤ (xs.length : ℚ) := ih (fun a ha => h a (by simp [ha]))
      simp only [List.sum_cons, List.length_cons]
      push_cast
      linarith

theorem list_sum_lt_length (l : List ℚ) (hle : ∀ a ∈ l, a ≤ 1)
    (hlt : ∃ a ∈ l, a < 1) : l.sum < (l.length : ℚ) := by
  induction l with
  | nil => simp at hlt
  | cons x xs ih =>
      rcases hlt with ⟨a, ha, halt⟩
      rcases List.mem_cons.mp ha with rfl | hmem
      · have hxs : xs.sum ≤ (xs.length : ℚ) :=
          list_sum_le_length xs (fun b hb => hle b (by simp [hb]))
        simp only [List.sum_cons, List.length_cons]
        push_cast
        linarith
      · have hx : x ≤ 1 := hle x (by simp)
        have hxs : xs.sum < (xs.length : ℚ) :=
          ih (fun b hb => hle b (by simp [hb])) ⟨a, hmem, halt⟩
        simp only [List.sum_cons, List.length_cons]
        push_cast
        linarith

theorem foldl_add_eq (f : ℕ → ℚ) :
    ∀ (l : List ℕ) (init : ℚ),
      l.foldl (fun acc p => acc + f p) init = init + (l.map f).sum := by
  intro l
  induction l with
  | nil => intro init; simp
  | cons x xs ih => intro init; simp [List.foldl_cons, ih]; ring

/-! ### Claims C5 and C6 (ridge penalty) -/

/-- C5: for every parameter vector, if every `alpha[i] = 1`, then Ridge
`getValue` returns exactly `0` and Ridge `getGradients` returns the all-zero
vector, independently of `lambda` and `weights` (which are universally
quantified here). -/
theorem claim_C5 (parameterValues : List ℚ) (tp : tuningParametersEnetGlmnet)
    (h : ∀ a ∈ tp.alpha, a = 1) :
    penaltyRidgeGlmnet.getValue parameterValues tp = 0 ∧
    penaltyRidgeGlmnet.getGradients parameterValues tp =
      List.replicate parameterValues.length 0 := by
  have hs := list_sum_of_all_one tp.alpha h
  exact ⟨by simp [penaltyRidgeGlmnet.getValue, hs],
    by simp [penaltyRidgeGlmnet.getGradients, hs]⟩

/-- C5 witness: a concrete all-ones `alpha` with nontrivial `lambda` and
`weights`. -/
theorem claim_C5_witness :
    (∀ a ∈ (⟨[1, 1], [5, 7], [2, 2]⟩ : tuningParametersEnetGlmnet).alpha, a = 1) ∧
    penaltyRidgeGlmnet.getValue [2, 3] ⟨[1, 1], [5, 7], [2, 2]⟩ = 0 ∧
    penaltyRidgeGlmnet.getGradients [2, 3] ⟨[1, 1], [5, 7], [2, 2]⟩ =
      List.replicate 2 0 :=
  ⟨by decide, (claim_C5 [2, 3] ⟨[1, 1], [5, 7], [2, 2]⟩ (by decide)).1,
    (claim_C5 [2, 3] ⟨[1, 1], [5, 7], [2, 2]⟩ (by decide)).2⟩

/-- C6: for every parameter vector whose `alpha` entries (within their
documented `[0,1]` range) are not all `1`, Ridge `getValue` equals the sum of
`lambda_i * params[i]^2` and Ridge `getGradients[i]` equals
`2 * lambda_i * params[i]`, with
`lambda_i = (1 - alpha[i]) * lambda[i] * weight[i]`. -/
theorem claim_C6 (parameterValues : List ℚ) (tp : tuningParametersEnetGlmnet)
    (hbound : ∀ a ∈ tp.alpha, 0 ≤ a ∧ a ≤ 1)
    (hnot : ¬ ∀ a ∈ tp.alpha, a = 1) :
    penaltyRidgeGlmnet.getValue parameterValues tp =
      ((List.range parameterValues.length).map (fun i =>
        ((1 - tp.alpha.getD i 0) * tp.lambda.getD i 0 * tp.weights.getD i 0) *
          (parameterValues.getD i 0) ^ 2)).sum ∧
    ∀ i, i < parameterValues.length →
      (penaltyRidgeGlmnet.getGradients parameterValues tp).getD i 0 =
        2 * ((1 - tp.alpha.getD i 0) * tp.lambda.getD i 0 * tp.weights.getD i 0) *
          (parameterValues.getD i 0) := by
  have hne : tp.alpha.sum ≠ (tp.alpha.length : ℚ) := by
    push_neg at hnot
    rcases hnot with ⟨a, ha, hane⟩
    have hlt : a < 1 := lt_of_le_of_ne (hbound a ha).2 hane
    exact ne_of_lt (list_sum_lt_length tp.alpha (fun b hb => (hbound b hb).2) ⟨a, ha, hlt⟩)
  constructor
  · simp [penaltyRidgeGlmnet.getValue, hne, foldl_add_eq]
  · intro i hi
    simp only [penaltyRidgeGlmnet.getGradients, hne, if_false]
    rw [List.getD_eq_getElem?_getD, List.getElem?_map, List.getElem?_range hi]
    simp only [Option.map_some', Option.getD_some]
    ring

/-- C6 witness: the spec's own scenario `alpha = [1/2, 1/2]`,
`lambda = [1, 1]`, `weights = [1, 1]`, `params = [2, 3]`, value `13/2`. -/
theorem claim_C6_witness :
    penaltyRidgeGlmnet.getValue [2, 3] ⟨[1 / 2, 1 / 2], [1, 1], [1, 1]⟩ =
      ((List.range 2).map (fun i =>
        ((1 - ([1 / 2, 1 / 2] : List ℚ).getD i 0) * ([1, 1] : List ℚ).getD i 0 *
            ([1, 1] : List ℚ).getD i 0) * (([2, 3] : List ℚ).getD i 0) ^ 2)).sum :=
  (claim_C6 [2, 3] ⟨[1 / 2, 1 / 2], [1, 1], [1, 1]⟩ (by norm_num) (by norm_num)).1

/-! ### Line-search helper lemmas -/

theorem lineSearchLoop_succ (F : Funs) (p d : DVec) (f0 : D) (g : DVec) (H : DMat)
    (s σ γ : ℚ) (i rem : ℕ) (st : DVec) (conv : Bool) :
    lineSearchLoop F p d f0 g H s σ γ i (rem + 1) st conv =
      if (lsFit F (lsCand p d s i)).isSome then
        (if lsTestB F p d f0 g H s σ γ i then
          (if allFinite (F.mgrad (lsCand p d s i)) then
            (lsCand p d s i, lsTestB F p d f0 g H s σ γ i)
           else
            lineSearchLoop F p d f0 g H s σ γ (i + 1) rem (lsCand p d s i)
              (lsTestB F p d f0 g H s σ γ i))
         else
          lineSearchLoop F p d f0 g H s σ γ (i + 1) rem (lsCand p d s i)
            (lsTestB F p d f0 g H s σ γ i))
      else
        lineSearchLoop F p d f0 g H s σ γ (i + 1) rem (lsCand p d s i) conv := rfl

theorem lineSearchLoop_zero (F : Funs) (p d : DVec) (f0 : D) (g : DVec) (H : DMat)
    (s σ γ : ℚ) (i : ℕ) (st : DVec) (conv : Bool) :
    lineSearchLoop F p d f0 g H s σ γ i 0 st conv = (st, conv) := rfl

theorem lsTestB_true_isSome (F : Funs) (p d : DVec) (f0 : D) (g : DVec) (H : DMat)
    (s σ γ : ℚ) (i : ℕ) (h : lsTestB F p d f0 g H s σ γ i = true) :
    (lsFit F (lsCand p d s i)).isSome = true := by
  cases hf : lsFit F (lsCand p d s i) with
  | none => rw [lsTestB, hf] at h; simp [oadd, osub, oleB] at h
  | some fk => rfl

theorem lineSearchLoop_first_accept (F : Funs) (p d : DVec) (f0 : D) (g : DVec)
    (H : DMat) (s σ γ : ℚ) :
    ∀ (m i rem : ℕ) (st : DVec) (conv : Bool),
      (∀ j, j < m → ¬ lsAccepts F p d f0 g H s σ γ (i + j)) →
      lsAccepts F p d f0 g H s σ γ (i + m) → m < rem →
      lineSearchLoop F p d f0 g H s σ γ i rem st conv = (lsCand p d s (i + m), true) := by
  intro m
  induction m with
  | zero =>
      intro i rem st conv _ hacc hrem
      obtain ⟨rem, rfl⟩ : ∃ r, rem = r + 1 := ⟨rem - 1, by omega⟩
      rw [lineSearchLoop_succ]
      rw [Nat.add_zero] at hacc
      simp [hacc.1, hacc.2.1, hacc.2.2]
  | succ m ih =>
      intro i rem st conv hno hacc hrem
      obtain ⟨rem, rfl⟩ : ∃ r, rem = r + 1 := ⟨rem - 1, by omega⟩
      have hno0 : ¬ lsAccepts F p d f0 g H s σ γ i := by
        have := hno 0 (by omega)
        simpa using this
      have hshift : ∀ j, j < m → ¬ lsAccepts F p d f0 g H s σ γ (i + 1 + j) := by
        intro j hj
        have h2 : i + 1 + j = i + (j + 1) := by omega
        rw [h2]
        exact hno (j + 1) (by omega)
      have hacc2 : lsAccepts F p d f0 g H s σ γ (i + 1 + m) := by
        have h2 : i + 1 + m = i + (m + 1) := by omega
        rw [h2]; exact hacc
      have hgoal : i + (m + 1) = i + 1 + m := by omega
      rw [lineSearchLoop_succ, hgoal]
      by_cases h1 : (lsFit F (lsCand p d s i)).isSome
      · by_cases h2 : lsTestB F p d f0 g H s σ γ i = true
        · have h3 : allFinite (F.mgrad (lsCand p d s i)) = false := by
            by_contra hc
            exact hno0 ⟨h1, h2, by simpa using hc⟩
          simp only [h1, h2, h3, if_true, if_false, Bool.false_eq_true]
          exact ih (i + 1) rem (lsCand p d s i) true hshift hacc2 (by omega)
        · rw [Bool.not_eq_true] at h2
          simp only [h1, h2, if_true, Bool.false_eq_true, if_false]
          exact ih (i + 1) rem (lsCand p d s i) false hshift hacc2 (by omega)
      · simp only [Bool.not_eq_true] at h1
        simp only [h1, Bool.false_eq_true, if_false]
        exact ih (i + 1) rem (lsCand p d s i) conv hshift hacc2 (by omega)

theorem lineSearchLoop_no_pass (F : Funs) (p d : DVec) (f0 : D) (g : DVec)
    (H : DMat) (s σ γ : ℚ) :
    ∀ (m i : ℕ) (st : DVec),
      (∀ j, j ≤ m → lsTestB F p d f0 g H s σ γ (i + j) = false) →
      lineSearchLoop F p d f0 g H s σ γ i (m + 1) st false = (lsCand p d s (i + m), false) := by
  intro m
  induction m with
  | zero =>
      intro i st hfail
      have h0 : lsTestB F p d f0 g H s σ γ i = false := by simpa using hfail 0 (by omega)
      rw [lineSearchLoop_succ]
      by_cases h1 : (lsFit F (lsCand p d s i)).isSome
      · simp [h1, h0, lineSearchLoop_zero]
      · simp only [Bool.not_eq_true] at h1
        simp [h1, lineSearchLoop_zero]
  | succ m ih =>
      intro i st hfail
      have h0 : lsTestB F p d f0 g H s σ γ i = false := by simpa using hfail 0 (by omega)
      have hshift : ∀ j, j ≤ m → lsTestB F p d f0 g H s σ γ (i + 1 + j) = false := by
        intro j hj
        have h2 : i + 1 + j = i + (j + 1) := by omega
        rw [h2]
        exact hfail (j + 1) (by omega)
      have hgoal : i + (m + 1) = i + 1 + m := by omega
      rw [lineSearchLoop_succ, hgoal]
      by_cases h1 : (lsFit F (lsCand p d s i)).isSome
      · simp only [h1, if_true]
        rw [if_neg (by simp [h0]), h0]
        exact ih (i + 1) (lsCand p d s i) hshift
      · simp only [Bool.not_eq_true] at h1
        simp only [h1, Bool.false_eq_true, if_false]
        exact ih (i + 1) (lsCand p d s i) hshift

theorem bfgsLineSearch_eq (F : Funs) (p d : DVec) (f0 : D) (g : DVec) (H : DMat)
    (s σ γ : ℚ) (m v : ℤ) (r1 r2 : ℚ) :
    bfgsLineSearch F p d f0 g H s σ γ m v r1 r2 =
      ⟨(lineSearchLoop F p d f0 g H s σ γ 0 m.toNat (List.replicate 1 none) false).1,
        !(lineSearchLoop F p d f0 g H s σ γ 0 m.toNat (List.replicate 1 none) false).2⟩ := rfl

theorem lsTestB_sigma_zero (F : Funs) (p d : DVec) (f0v : ℚ) (g : DVec) (H : DMat)
    (s γ : ℚ) (i : ℕ) (hct : (lsCompareTo g d H γ).isSome = true) :
    lsTestB F p d (some f0v) g H s 0 γ i = oleB (lsFit F (lsCand p d s i)) (some f0v) := by
  obtain ⟨ct, hc⟩ := Option.isSome_iff_exists.mp hct
  cases hf : lsFit F (lsCand p d s i) with
  | none => rw [lsTestB, hf]; simp [oadd, osub, oleB]
  | some fk =>
      rw [lsTestB, hf, hc]
      simp only [oadd, osub, omul, oleB]
      rw [show (0 : ℚ) * s ^ i * ct = 0 by ring]
      rw [decide_eq_decide]
      constructor <;> intro h <;> linarith

/-! ### Claims C1-C4, C7, C8, C10 (line search) -/

/-- C1 counterexample: with `sigma = 0` the first candidate has finite
combined fit (`1`) and a finite gradient, yet the line search does not
accept it — the test `f_k - f_0 <= 0` fails since the fit increased — and
returns a different (smaller-step) candidate with the non-convergence
warning.  This refutes the claim that `sigma = 0` makes the decrease
requirement vacuous. -/
theorem claim_C1_counterexample :
    lsFit cexF1 (lsCand [some 0] [some 1] (1 / 2) 0) = some 1 ∧
    allFinite (cexF1.mgrad (lsCand [some 0] [some 1] (1 / 2) 0)) = true ∧
    (bfgsLineSearch cexF1 [some 0] [some 1] (some 0) [some 1] [[some 1]]
      (1 / 2) 0 0 2 0 1 0).warned = true ∧
    (bfgsLineSearch cexF1 [some 0] [some 1] (some 0) [some 1] [[some 1]]
      (1 / 2) 0 0 2 0 1 0).parameters ≠ lsCand [some 0] [some 1] (1 / 2) 0 := by
  with_unfolding_all decide

/-- C1 amended: with `sigma = 0` (and a finite previous combined fit and a
finite comparison term), the line search accepts the first candidate whose
combined fit is finite and does not exceed the previous combined fit and
whose gradient is finite; the decrease requirement degenerates to the
non-strict comparison `f_k <= f_0`, not to no constraint at all. -/
theorem claim_C1_amended (F : Funs) (p d : DVec) (f0v : ℚ) (g : DVec) (H : DMat)
    (s γ : ℚ) (m v : ℤ) (r1 r2 : ℚ) (i : ℕ)
    (hct : (lsCompareTo g d H γ).isSome = true)
    (hi : i < m.toNat)
    (hfirst : ∀ j, j < i →
      ¬ (oleB (lsFit F (lsCand p d s j)) (some f0v) = true ∧
         allFinite (F.mgrad (lsCand p d s j)) = true))
    (hfit : oleB (lsFit F (lsCand p d s i)) (some f0v) = true)
    (hgrad : allFinite (F.mgrad (lsCand p d s i)) = true) :
    bfgsLineSearch F p d (some f0v) g H s 0 γ m v r1 r2 = ⟨lsCand p d s i, false⟩ := by
  have hacc_iff : ∀ j, lsAccepts F p d (some f0v) g H s 0 γ j ↔
      (oleB (lsFit F (lsCand p d s j)) (some f0v) = true ∧
       allFinite (F.mgrad (lsCand p d s j)) = true) := by
    intro j
    rw [lsAccepts, lsTestB_sigma_zero F p d f0v g H s γ j hct]
    constructor
    · rintro ⟨h1, h2, h3⟩; exact ⟨h2, h3⟩
    · rintro ⟨h2, h3⟩
      refine ⟨?_, h2, h3⟩
      cases hf : lsFit F (lsCand p d s j) with
      | none => rw [hf] at h2; simp [oleB] at h2
      | some fk => rfl
  rw [bfgsLineSearch_eq]
  have hrun := lineSearchLoop_first_accept F p d (some f0v) g H s 0 γ i 0 m.toNat
    (List.replicate 1 none) false
    (fun j hj => by rw [Nat.zero_add, hacc_iff]; exact fun hc => hfirst j hj hc)
    (by rw [Nat.zero_add, hacc_iff]; exact ⟨hfit, hgrad⟩) hi
  simp only [Nat.zero_add] at hrun
  rw [hrun]
  rfl

/-- C1 witness: a strictly decreasing fit is accepted at the very first
candidate when `sigma = 0`. -/
theorem claim_C1_witness :
    bfgsLineSearch witF1 [some 0] [some 1] (some 0) [some 1] [[some 1]]
      (1 / 2) 0 0 2 0 1 0 = ⟨lsCand [some 0] [some 1] (1 / 2) 0, false⟩ :=
  claim_C1_amended witF1 [some 0] [some 1] 0 [some 1] [[some 1]] (1 / 2) 0 2 0 1 0 0
    (by with_unfolding_all decide) (by decide) (fun j hj => absurd hj (by omega))
    (by with_unfolding_all decide) (by with_unfolding_all decide)

/-- C2 counterexample: there are no inputs on which two line-search runs
receiving different random draws return different results — the negation of
the claimed run-to-run nondeterminism.  The value the draws assign to the
working step size is overwritten at the top of every loop iteration before
any use. -/
theorem claim_C2_counterexample :
    ¬ ∃ (F : Funs) (p d : DVec) (f0 : D) (g : DVec) (H : DMat) (s σ γ : ℚ)
        (m v : ℤ) (r1 r2 r1' r2' : ℚ),
        bfgsLineSearch F p d f0 g H s σ γ m v r1 r2 ≠
          bfgsLineSearch F p d f0 g H s σ γ m v r1' r2' := by
  rintro ⟨F, p, d, f0, g, H, s, σ, γ, m, v, r1, r2, r1', r2', hne⟩
  exact hne rfl

/-- C2 amended: the two uniform draws are consumed by `bfgsLineSearch`, but
the working step size they determine is reassigned to
`pow(stepSize, iteration)` at the top of every loop iteration before any
use, so the returned parameters are a deterministic function of the
non-random inputs: two runs differing only in their random draws return
identical results. -/
theorem claim_C2_theorem (F : Funs) (p d : DVec) (f0 : D) (g : DVec) (H : DMat)
    (s σ γ : ℚ) (m v : ℤ) (r1 r2 r1' r2' : ℚ) :
    bfgsLineSearch F p d f0 g H s σ γ m v r1 r2 =
      bfgsLineSearch F p d f0 g H s σ γ m v r1' r2' := rfl

/-- C3: the candidate evaluated at line-search iteration `i` uses step
length `stepSize ^ i` applied to the configured nominal base `stepSize`
(iteration 0 gives the full step `1`), and the candidate point is
`parameters_kMinus1 + stepLength * direction`: if `i` is the first accepted
iteration within the budget, the search returns exactly that point. -/
theorem claim_C3 (F : Funs) (p d : DVec) (f0 : D) (g : DVec) (H : DMat)
    (s σ γ : ℚ) (m v : ℤ) (r1 r2 : ℚ) (i : ℕ)
    (hi : i < m.toNat)
    (hfirst : ∀ j, j < i → ¬ lsAccepts F p d f0 g H s σ γ j)
    (hacc : lsAccepts F p d f0 g H s σ γ i) :
    bfgsLineSearch F p d f0 g H s σ γ m v r1 r2 =
      ⟨vadd p (smulv (s ^ i) d), false⟩ := by
  rw [bfgsLineSearch_eq]
  have hrun := lineSearchLoop_first_accept F p d f0 g H s σ γ i 0 m.toNat
    (List.replicate 1 none) false
    (fun j hj => by rw [Nat.zero_add]; exact hfirst j hj)
    (by rw [Nat.zero_add]; exact hacc) hi
  simp only [Nat.zero_add] at hrun
  rw [hrun]
  rfl

/-- C3 witness: the first candidate (step length `(1/2)^0 = 1`) has a
non-finite fit and is skipped; iteration `1` is accepted at step length
`(1/2)^1`, and the returned point is `p + (1/2)^1 * d`. -/
theorem claim_C3_witness :
    bfgsLineSearch witF3 [some 0] [some 1] (some 0) [some (-1)] [[some 1]]
      (1 / 2) 1 0 3 0 1 0 =
      ⟨vadd [some 0] (smulv ((1 / 2 : ℚ) ^ 1) [some 1]), false⟩ :=
  claim_C3 witF3 [some 0] [some 1] (some 0) [some (-1)] [[some 1]] (1 / 2) 1 0 3 0 1 0 1
    (by decide) (by with_unfolding_all decide) (by with_unfolding_all decide)

/-- C4: for a candidate with finite combined fit `f_k`, the acceptance test
of the line search holds if and only if
`f_k - f_0 <= sigma * stepLength * (gradient_kMinus1 . direction + gamma *
direction^T * Hessian_kMinus1 * direction)` with `f_0` the previous
combined fit; with `gamma = 0` this is the Armijo-type condition; and the
loop accepts or continues accordingly. -/
theorem claim_C4 (F : Funs) (p d : DVec) (f0 : D) (g : DVec) (H : DMat)
    (s σ γ : ℚ) (i rem : ℕ) (st : DVec) (conv : Bool) (fk f0v gd dHd : ℚ)
    (hfit : lsFit F (lsCand p d s i) = some fk)
    (hf0 : f0 = some f0v)
    (hgd : dotv g d = some gd)
    (hdHd : dotv d (matvecv H d) = some dHd) :
    (lsTestB F p d f0 g H s σ γ i = true ↔
      fk - f0v ≤ σ * s ^ i * (gd + γ * dHd)) ∧
    (γ = 0 → (lsTestB F p d f0 g H s σ γ i = true ↔
      fk - f0v ≤ σ * s ^ i * gd)) ∧
    lineSearchLoop F p d f0 g H s σ γ i (rem + 1) st conv =
      (if fk - f0v ≤ σ * s ^ i * (gd + γ * dHd) then
        (if allFinite (F.mgrad (lsCand p d s i)) then (lsCand p d s i, true)
         else lineSearchLoop F p d f0 g H s σ γ (i + 1) rem (lsCand p d s i) true)
       else lineSearchLoop F p d f0 g H s σ γ (i + 1) rem (lsCand p d s i) false) := by
  have hct : lsCompareTo g d H γ = some (gd + γ * dHd + 0 - 0) := by
    rw [lsCompareTo, hgd, hdHd]; rfl
  have htest : lsTestB F p d f0 g H s σ γ i =
      decide (fk - f0v ≤ σ * s ^ i * (gd + γ * dHd)) := by
    rw [lsTestB, hfit, hf0, hct]
    simp only [oadd, osub, omul, oleB]
    rw [show fk + 0 - (f0v + 0) = fk - f0v from by ring,
      show gd + γ * dHd + 0 - 0 = gd + γ * dHd from by ring]
  refine ⟨by simp [htest], fun hγ => ?_, ?_⟩
  · subst hγ
    rw [show σ * s ^ i * gd = σ * s ^ i * (gd + 0 * dHd) from by ring]
    simp [htest]
  · rw [lineSearchLoop_succ, hfit, htest]
    simp only [Option.isSome_some, if_true]
    by_cases hP : fk - f0v ≤ σ * s ^ i * (gd + γ * dHd)
    · simp [hP]
    · simp [hP]

/-- C4 witness: a decreasing fit passes the test at concrete inputs via the
stated inequality. -/
theorem claim_C4_witness :
    lsTestB witF1 [some 0] [some 1] (some 0) [some 1] [[some 1]] (1 / 2) 1 0 0 = true :=
  (claim_C4 witF1 [some 0] [some 1] (some 0) [some 1] [[some 1]] (1 / 2) 1 0 0 0 []
    false (-1) 0 1 1 (by with_unfolding_all decide) rfl (by with_unfolding_all decide)
    (by with_unfolding_all decide)).1.mpr (by norm_num)

/-- C7: a candidate with a non-finite combined fit, or one passing the
decrease test with a non-finite gradient, is skipped in favour of the next
(smaller) step length — the loop at iteration `i` continues at iteration
`i + 1` — and no error state exists (the search is a total function). -/
theorem claim_C7 (F : Funs) (p d : DVec) (f0 : D) (g : DVec) (H : DMat)
    (s σ γ : ℚ) (i rem : ℕ) (st : DVec) (conv : Bool) :
    (lsFit F (lsCand p d s i) = none →
      lineSearchLoop F p d f0 g H s σ γ i (rem + 1) st conv =
        lineSearchLoop F p d f0 g H s σ γ (i + 1) rem (lsCand p d s i) conv) ∧
    (lsTestB F p d f0 g H s σ γ i = true →
      allFinite (F.mgrad (lsCand p d s i)) = false →
      lineSearchLoop F p d f0 g H s σ γ i (rem + 1) st conv =
        lineSearchLoop F p d f0 g H s σ γ (i + 1) rem (lsCand p d s i) true) := by
  constructor
  · intro hf
    rw [lineSearchLoop_succ, hf]
    simp
  · intro ht hg
    have hs := lsTestB_true_isSome F p d f0 g H s σ γ i ht
    rw [lineSearchLoop_succ]
    simp [hs, ht, hg]

/-- C7 witness: a non-finite fit at the first candidate makes the loop step
from iteration `0` to iteration `1`. -/
theorem claim_C7_witness :
    lineSearchLoop witF7 [some 0] [some 1] (some 0) [some 1] [[some 1]] 1 0 0 0 1
        (List.replicate 1 none) false =
      lineSearchLoop witF7 [some 0] [some 1] (some 0) [some 1] [[some 1]] 1 0 0 1 0
        (lsCand [some 0] [some 1] 1 0) false :=
  (claim_C7 witF7 [some 0] [some 1] (some 0) [some 1] [[some 1]] 1 0 0 0 0
    (List.replicate 1 none) false).1 rfl

/-- C8: if the decrease test fails at every iteration of the budget
(`maxIterLine = n + 1`), the line search returns the last attempted
candidate `p + stepSize^n * d` with the non-convergence warning; for
`maxIterLine = 1` that candidate is the full step `p + 1 * d`. -/
theorem claim_C8 (F : Funs) (p d : DVec) (f0 : D) (g : DVec) (H : DMat)
    (s σ γ : ℚ) (m v : ℤ) (r1 r2 : ℚ) (n : ℕ)
    (hm : m.toNat = n + 1)
    (hfail : ∀ j, j ≤ n → lsTestB F p d f0 g H s σ γ j = false) :
    bfgsLineSearch F p d f0 g H s σ γ m v r1 r2 = ⟨lsCand p d s n, true⟩ ∧
    (m = 1 → bfgsLineSearch F p d f0 g H s σ γ m v r1 r2 =
      ⟨vadd p (smulv 1 d), true⟩) := by
  have hmain : bfgsLineSearch F p d f0 g H s σ γ m v r1 r2 = ⟨lsCand p d s n, true⟩ := by
    rw [bfgsLineSearch_eq, hm]
    have hrun := lineSearchLoop_no_pass F p d f0 g H s σ γ n 0 (List.replicate 1 none)
      (fun j hj => by rw [Nat.zero_add]; exact hfail j hj)
    simp only [Nat.zero_add] at hrun
    rw [hrun]
    rfl
  refine ⟨hmain, fun h1 => ?_⟩
  have hn : n = 0 := by subst h1; omega
  subst hn
  rw [hmain, lsCand, pow_zero]

/-- C8 witness: with `sigma = 0`, an increasing fit and `maxIterLine = 1`,
the full step is rejected and returned with the warning. -/
theorem claim_C8_witness :
    bfgsLineSearch cexF1 [some 0] [some 1] (some 0) [some 1] [[some 1]]
      (1 / 2) 0 0 1 0 1 0 = ⟨lsCand [some 0] [some 1] (1 / 2) 0, true⟩ :=
  (claim_C8 cexF1 [some 0] [some 1] (some 0) [some 1] [[some 1]] (1 / 2) 0 0 1 0 1 0 0
    (by decide) (by with_unfolding_all decide)).1

/-- C10 counterexample: with `maxIterLine = 0` and a gradient vector of
length `2`, the returned parameter vector has length `1`
(`gradients_kMinus1.n_rows` of an `arma::rowvec` is `1`), not the
gradient's length. -/
theorem claim_C10_counterexample :
    (bfgsLineSearch cexF1 [some 0, some 0] [some 1, some 1] (some 0) [some 0, some 0]
      [[some 1, some 0], [some 0, some 1]] (1 / 2) 0 0 0 0 1 0).parameters.length = 1 ∧
    ([some 0, some 0] : DVec).length = 2 ∧
    (bfgsLineSearch cexF1 [some 0, some 0] [some 1, some 1] (some 0) [some 0, some 0]
      [[some 1, some 0], [some 0, some 1]] (1 / 2) 0 0 0 0 1 0).parameters.length ≠
      ([some 0, some 0] : DVec).length := by
  with_unfolding_all decide

/-- C10 amended: if `maxIterLine <= 0` the loop body never executes and
`bfgsLineSearch` returns the initial `parameters_k`: a vector with
`gradients_kMinus1.n_rows = 1` entry (an `arma::rowvec` always has one
row), that entry NaN, with the non-convergence warning emitted. -/
theorem claim_C10_amended (F : Funs) (p d : DVec) (f0 : D) (g : DVec) (H : DMat)
    (s σ γ : ℚ) (m v : ℤ) (r1 r2 : ℚ) (hm : m ≤ 0) :
    bfgsLineSearch F p d f0 g H s σ γ m v r1 r2 =
      ⟨List.replicate 1 none, true⟩ := by
  rw [bfgsLineSearch_eq, Int.toNat_of_nonpos hm]
  rfl

/-- C10 witness: `maxIterLine = 0` at concrete inputs returns the length-1
NaN vector with the warning. -/
theorem claim_C10_witness :
    bfgsLineSearch cexF1 [] [] none [some 0, some 0] [] 1 0 0 0 0 1 0 =
      ⟨List.replicate 1 none, true⟩ :=
  claim_C10_amended cexF1 [] [] none [some 0, some 0] [] 1 0 0 0 0 1 0 (by decide)

/-! ### Claim C9 (outer iteration, gradients criterion) -/

theorem outerLoop_succ (F : Funs) (c : controlBFGS) (rand : ℕ → ℚ × ℚ)
    (i fuel : ℕ) (st : OuterState) :
    outerLoop F c rand i (fuel + 1) st =
      (if outerCrit c i (outerStep F c rand i st) then (outerStep F c rand i st, true)
       else outerLoop F c rand (i + 1) fuel (rollState (outerStep F c rand i st))) := rfl

theorem streamFrom_shift (F : Funs) (c : controlBFGS) (rand : ℕ → ℚ × ℚ)
    (k : ℕ) (st : OuterState) :
    ∀ j, streamFrom F c rand (k + 1) (rollState (outerStep F c rand k st)) j =
      streamFrom F c rand k st (j + 1) := by
  intro j
  induction j with
  | zero => simp [streamFrom]
  | succ j ih =>
      rw [streamFrom, ih, show k + 1 + j = k + (j + 1) from by omega]
      rfl

theorem outerLoop_conv_iff (F : Funs) (c : controlBFGS) (rand : ℕ → ℚ × ℚ) :
    ∀ (fuel k : ℕ) (st : OuterState),
      (outerLoop F c rand k fuel st).2 = true ↔
        ∃ j, j < fuel ∧
          outerCrit c (k + j)
            (outerStep F c rand (k + j) (streamFrom F c rand k st j)) = true := by
  intro fuel
  induction fuel with
  | zero => intro k st; simp [outerLoop]
  | succ fuel ih =>
      intro k st
      rw [outerLoop_succ]
      by_cases h : outerCrit c k (outerStep F c rand k st) = true
      · simp only [h, if_true]
        constructor
        · intro _
          exact ⟨0, by omega, by simpa [streamFrom] using h⟩
        · intro _; trivial
      · rw [if_neg (by simp [h]), ih (k + 1) (rollState (outerStep F c rand k st))]
        constructor
        · rintro ⟨j, hj, hcrit⟩
          refine ⟨j + 1, by omega, ?_⟩
          rw [streamFrom_shift] at hcrit
          rw [show k + (j + 1) = k + 1 + j from by omega]
          exact hcrit
        · rintro ⟨j, hj, hcrit⟩
          cases j with
          | zero =>
              exact absurd (by simpa [streamFrom] using hcrit) h
          | succ j =>
              refine ⟨j, by omega, ?_⟩
              rw [streamFrom_shift, show k + 1 + j = k + (j + 1) from by omega]
              exact hcrit

theorem outerCrit_gradients (c : controlBFGS) (i : ℕ) (st : OuterState)
    (hc : c.convergenceCriterion = convergenceCriteriaBFGS.gradients_) :
    (outerCrit c i st = true ↔
      ∀ e ∈ st.gradients_k, absLtB c.breakOuter e = true) := by
  simp only [outerCrit, hc, decide_eq_true_eq]
  exact List.countP_eq_length

/-- C9: with `convergenceCriterion = gradients_`, `bfgsOptim` returns a
result whose convergence flag is `true` exactly when, at some outer
iteration within `maxIterOut`, every component of the absolute gradient
`gradients_k` lies below `breakOuter`; and the non-convergence warning is
emitted exactly when the convergence flag is `false`. -/
theorem claim_C9 (F : Funs) (sv : DVec) (c : controlBFGS) (rand : ℕ → ℚ × ℚ)
    (hc : c.convergenceCriterion = convergenceCriteriaBFGS.gradients_) :
    ((bfgsOptim F sv c rand).convergence = true ↔
      ∃ i, i < c.maxIterOut.toNat ∧
        ∀ e ∈ (outerStep F c rand i
            (streamFrom F c rand 0 (initState F sv c) i)).gradients_k,
          absLtB c.breakOuter e = true) ∧
    (bfgsOptim F sv c rand).warnedOuter = !(bfgsOptim F sv c rand).convergence := by
  refine ⟨?_, rfl⟩
  have hconv : (bfgsOptim F sv c rand).convergence =
      (outerLoop F c rand 0 c.maxIterOut.toNat (initState F sv c)).2 := rfl
  rw [hconv, outerLoop_conv_iff F c rand c.maxIterOut.toNat 0 (initState F sv c)]
  refine exists_congr fun j => and_congr_right fun hj => ?_
  rw [Nat.zero_add]
  exact outerCrit_gradients c j _ hc

/-- C9 witness: a one-parameter model with zero gradients converges at the
first outer iteration under the `gradients_` criterion. -/
theorem claim_C9_witness :
    (bfgsOptim witF9 [some 0] witC9 (fun _ => (1, 1))).convergence = true :=
  (claim_C9 witF9 [some 0] witC9 (fun _ => (1, 1)) rfl).1.mpr
    ⟨0, by decide, by with_unfolding_all decide⟩

end lessSEM
